import Mathlib

/-!
# Verification of the Slopify leaderboard backend (src/suwurver.js)

A shallow embedding of the core pipeline of the server: the JSON flat-file store
(`readJsonFile` / `writeJsonFile`), the upstream commit paginator
(`fetchAllCommits`), and the three request handlers (`GET /api/commits`,
`POST /api/votes`, `POST /api/sync`).

Modelling conventions:
* A persisted JSON file is a `FileContent α`: `stored doc` when `fs.readFile`
  succeeds and `JSON.parse` yields a document, `absent` when the file is
  missing, `corrupt` when the content does not parse.  `JSON.stringify`
  followed by `JSON.parse` is the identity on the documents this server
  writes (arrays of records of strings), so a successful write is modelled
  as `stored doc` directly.
* JavaScript strings are treated as their character sequences;
  `toLowerCase` / `includes` / `startsWith` are modelled character-wise
  (`jsToLower`, `jsIncludes`, `jsStartsWith`).
* `Array.prototype.sort` with the comparator `(a, b) => b.upvotes - a.upvotes`
  is a stable sort (ECMAScript 2019), hence modelled by `List.mergeSort`
  with the boolean order `voteCompare a b = (b.upvotes ≤ a.upvotes)`.
* The `while (hasNextPage)` loop of `fetchAllCommits` has no bound in the
  source; the embedding adds explicit fuel, with a dedicated error
  `fuelExhausted` that is a modelling artifact, distinct from the
  `throw new Error` on a non-ok upstream response (`apiError`).
-/

namespace Suwurver

/-- Character-wise model of JavaScript `String.prototype.toLowerCase()`. -/
def jsToLower (s : String) : String := ⟨s.data.map Char.toLower⟩

/-- Model of JavaScript `String.prototype.startsWith(pre)`. -/
def jsStartsWith (s pre : String) : Bool := pre.data.isPrefixOf s.data

/-- Helper for `jsIncludes`: does `pat` occur contiguously in the list? -/
def includesAux (pat : List Char) : List Char → Bool
  | [] => pat.isEmpty
  | h :: t => pat.isPrefixOf (h :: t) || includesAux pat t

/-- Model of JavaScript `String.prototype.includes(pat)` (substring test). -/
def jsIncludes (hay pat : String) : Bool := includesAux pat.data hay.data

/-- JavaScript falsiness of a possibly-missing string value:
`undefined` and the empty string are falsy (`!commitId`, `!userId`,
`!token`, `search ? _ : _` in the source). -/
def falsy : Option String → Bool
  | none => true
  | some s => s.data.isEmpty

/-- A vote record as persisted in `votes.json` by `POST /api/votes`:
`{ commitId, userId, timestamp, ip }` (src/suwurver.js:321-326). -/
structure Vote where
  commitId : String
  userId : String
  timestamp : String
  ip : String
deriving DecidableEq, Repr

/-- A canonical item as persisted in `commits.json`.  The sync path writes
`{ id, message, author, date, link }` (src/suwurver.js:208-214); the JSON
documents are schemaless, so an item may additionally carry the optional
`description` field of the pull-request variant of the data model, which the
commit handlers never write and the search filter never examines. -/
structure Commit where
  id : String
  message : String
  author : String
  date : String
  link : String
  description : Option String := none
deriving DecidableEq, Repr

/-- A commit enriched with its vote count, as served by `GET /api/commits`
(`{ ...commit, upvotes }`, src/suwurver.js:278-281). -/
structure RankedCommit extends Commit where
  upvotes : Nat
deriving DecidableEq, Repr

/-- State of one persisted JSON file. -/
inductive FileContent (α : Type) where
  | absent
  | corrupt
  | stored (doc : α)
deriving DecidableEq, Repr

/-- The durable state: the two flat files `commits.json` and `votes.json`. -/
structure Store where
  commitsFile : FileContent (List Commit)
  votesFile : FileContent (List Vote)
deriving DecidableEq, Repr

/-- `readJsonFile` (src/suwurver.js:218-227): return the parsed document;
on a missing or unparsable file, write the serialized default and return
the default.  Result: the value returned and the file content afterwards. -/
def readJsonFile {α : Type} (file : FileContent α) (defaultValue : α) :
    α × FileContent α :=
  match file with
  | .stored doc => (doc, .stored doc)
  | .absent => (defaultValue, .stored defaultValue)
  | .corrupt => (defaultValue, .stored defaultValue)

/-- `writeJsonFile` (src/suwurver.js:229-237): serialize and persist,
overwriting any prior content. -/
def writeJsonFile {α : Type} (data : α) : FileContent α := .stored data

/-- The items half of a read of the persisted state. -/
def commitsOf (st : Store) : List Commit := (readJsonFile st.commitsFile []).1

/-- The votes half of a read of the persisted state. -/
def votesOf (st : Store) : List Vote := (readJsonFile st.votesFile []).1

/-- `GET /api/commits` vote count: votes whose `commitId` equals the `id` of the item (src/suwurver.js:280). -/
def upvotesOf (votes : List Vote) (c : Commit) : Nat :=
  (votes.filter fun vote => vote.commitId == c.id).length

/-- `{ ...commit, upvotes: votes.filter(...).length }` (src/suwurver.js:278-281). -/
def enrichCommit (votes : List Vote) (commit : Commit) : RankedCommit :=
  { toCommit := commit, upvotes := upvotesOf votes commit }

/-- The comparator `(a, b) => b.upvotes - a.upvotes` (src/suwurver.js:283):
`a` may precede `b` exactly when `b.upvotes ≤ a.upvotes`. -/
def voteCompare (a b : RankedCommit) : Bool := Nat.ble b.upvotes a.upvotes

/-- The search predicate of `GET /api/commits` (src/suwurver.js:287-290):
lower-cased `message` or `author` contains the (already lower-cased) term. -/
def matchesSearch (s : String) (c : RankedCommit) : Bool :=
  jsIncludes (jsToLower c.message) s || jsIncludes (jsToLower c.author) s

/-- Handler of `GET /api/commits` (src/suwurver.js:273-303): read both files,
join each commit with its vote count, sort by upvotes descending (stable),
then filter by the optional lower-cased search term (a falsy — absent or
empty — term returns the full ranked list).  Returns the response body and
the store afterwards (reads can seed missing files with `[]`). -/
def getCommits (st : Store) (search : Option String) :
    List RankedCommit × Store :=
  let rc := readJsonFile st.commitsFile []
  let rv := readJsonFile st.votesFile []
  let st' : Store := { commitsFile := rc.2, votesFile := rv.2 }
  let enrichedCommits := rc.1.map (enrichCommit rv.1)
  let sortedCommits := enrichedCommits.mergeSort voteCompare
  match search with
  | none => (sortedCommits, st')
  | some q =>
    let s := jsToLower q
    if s.data.isEmpty then (sortedCommits, st')
    else (sortedCommits.filter (matchesSearch s), st')

/-- Body of a `POST /api/votes` request (fields may be absent). -/
structure VoteRequest where
  commitId : Option String
  userId : Option String
deriving DecidableEq, Repr

/-- Outcome of `POST /api/votes`: HTTP 400 "Missing required fields",
HTTP 400 "Already voted", or `{ success: true }`. -/
inductive VoteResponse where
  | missingFields
  | alreadyVoted
  | success
deriving DecidableEq, Repr

/-- Handler of `POST /api/votes` (src/suwurver.js:305-335): reject falsy
fields; otherwise load the ledger, reject an existing `(commitId, userId)`
pair without writing, else append a vote stamped with the current time and
request origin and persist the ledger. -/
def postVotes (st : Store) (req : VoteRequest) (now ip : String) :
    VoteResponse × Store :=
  if falsy req.commitId || falsy req.userId then
    (.missingFields, st)
  else
    let commitId := req.commitId.getD ""
    let userId := req.userId.getD ""
    let rv := readJsonFile st.votesFile []
    let votes := rv.1
    if votes.any fun vote => vote.commitId == commitId && vote.userId == userId then
      (.alreadyVoted, { st with votesFile := rv.2 })
    else
      let votes := votes ++ [{ commitId := commitId, userId := userId,
                               timestamp := now, ip := ip }]
      (.success, { st with votesFile := writeJsonFile votes })

/-- A raw GitHub commit author object (`c.commit.author`). -/
structure GitAuthor where
  name : String
  date : String
deriving DecidableEq, Repr

/-- A raw GitHub commit payload (`c.commit`). -/
structure GitCommitData where
  message : String
  author : GitAuthor
deriving DecidableEq, Repr

/-- A raw element of a GitHub commits page. -/
structure RawCommit where
  sha : String
  commit : GitCommitData
  html_url : String
deriving DecidableEq, Repr

/-- One page request issued by the paginator
(`?per_page=100&page=N`, src/suwurver.js:181). -/
structure PageRequest where
  perPage : Nat
  page : Nat
deriving DecidableEq, Repr

/-- An upstream HTTP response: status, parsed body, and `Link` header. -/
structure UpstreamResponse where
  ok : Bool
  statusText : String
  body : List RawCommit
  linkHeader : Option String
deriving DecidableEq, Repr

/-- The continuation check of src/suwurver.js:196-197: the `Link` header is
present and contains the substring `rel="next"`. -/
def hasNextPage (r : UpstreamResponse) : Bool :=
  match r.linkHeader with
  | none => false
  | some h => jsIncludes h "rel=\"next\""

/-- Failure of `fetchAllCommits`: the `throw new Error` on a non-ok response
(src/suwurver.js:188-190), or exhaustion of the fuel of the embedding (the
source loop is unbounded). -/
inductive FetchError where
  | apiError (statusText : String)
  | fuelExhausted
deriving DecidableEq, Repr

/-- The `while (hasNextPage)` loop of `fetchAllCommits`
(src/suwurver.js:175-199): request page `page` with `per_page=100`, throw on
a non-ok response, append the page body, continue while the `Link` header
advertises a `next` relation.  Also accumulates the requests issued. -/
def fetchCommitsLoop (upstream : PageRequest → UpstreamResponse) :
    Nat → Nat → List RawCommit → List PageRequest →
    Except FetchError (List RawCommit × List PageRequest)
  | 0, _, _, _ => .error .fuelExhausted
  | fuel + 1, page, commits, reqs =>
    let request : PageRequest := { perPage := 100, page := page }
    let response := upstream request
    if !response.ok then
      .error (.apiError response.statusText)
    else
      let commits := commits ++ response.body
      let reqs := reqs ++ [request]
      if hasNextPage response then
        fetchCommitsLoop upstream fuel (page + 1) commits reqs
      else
        .ok (commits, reqs)

/-- Normalization of the fetched commits (src/suwurver.js:201-215): drop
commits authored by `"Dishpit"` or whose message starts with `"Merge"`,
map the rest to `{ id, message, author, date, link }`. -/
def normalizeCommits (commits : List RawCommit) : List Commit :=
  let filteredCommits := commits.filter fun c =>
    c.commit.author.name != "Dishpit" && !(jsStartsWith c.commit.message "Merge")
  filteredCommits.map fun c =>
    { id := c.sha, message := c.commit.message, author := c.commit.author.name,
      date := c.commit.author.date, link := c.html_url }

/-- `fetchAllCommits` (src/suwurver.js:175-215): fetch every page starting
at page 1, then filter and map.  Returns the normalized items together with
the page requests issued. -/
def fetchAllCommits (upstream : PageRequest → UpstreamResponse) (fuel : Nat) :
    Except FetchError (List Commit × List PageRequest) :=
  match fetchCommitsLoop upstream fuel 1 [] [] with
  | .error e => .error e
  | .ok (commits, reqs) => .ok (normalizeCommits commits, reqs)

/-- Outcome of `POST /api/sync`: HTTP 401 "No token provided",
HTTP 500 "Sync failed", or `{ success: true, count }`. -/
inductive SyncResponse where
  | noToken
  | syncFailed
  | synced (count : Nat)
deriving DecidableEq, Repr

/-- Handler of `POST /api/sync` (src/suwurver.js:337-354): reject a falsy
token; otherwise run the paginator and, only on success, overwrite
`commits.json` wholesale and answer with the item count. -/
def postSync (st : Store) (token : Option String)
    (upstream : PageRequest → UpstreamResponse) (fuel : Nat) :
    SyncResponse × Store :=
  if falsy token then
    (.noToken, st)
  else
    match fetchAllCommits upstream fuel with
    | .error _ => (.syncFailed, st)
    | .ok (commits, _) =>
      (.synced commits.length, { st with commitsFile := writeJsonFile commits })

/-- The vote ledger held in the store (an unreadable file counts as the
empty ledger it would be seeded with). -/
def ledgerOf (st : Store) : List Vote :=
  match st.votesFile with
  | .stored votes => votes
  | _ => []

/-- The deduplication key of a vote. -/
def pairKey (v : Vote) : String × String := (v.commitId, v.userId)

/-- No two votes of the ledger share a `(commitId, userId)` pair. -/
def noDupPairs (votes : List Vote) : Prop :=
  votes.Pairwise fun v w => pairKey v ≠ pairKey w

/-- A sequence of `POST /api/votes` calls, each `(body, timestamp, origin)`. -/
def runVotes (st : Store) : List (VoteRequest × String × String) → Store
  | [] => st
  | (req, now, ip) :: rest => runVotes (postVotes st req now ip).2 rest

/-- A read always leaves the file storing exactly the value it returned. -/
theorem readJsonFile_snd {α : Type} (file : FileContent α) (d : α) :
    (readJsonFile file d).2 = .stored (readJsonFile file d).1 := by
  cases file <;> rfl

/-- Reading the votes file with default `[]` yields the ledger. -/
theorem readJsonFile_votes (st : Store) :
    (readJsonFile st.votesFile []).1 = ledgerOf st := by
  obtain ⟨cf, vf⟩ := st
  cases vf <;> rfl

/-- One `POST /api/votes` call preserves pairwise-distinct vote keys. -/
theorem postVotes_preserves_noDup (st : Store) (req : VoteRequest)
    (now ip : String) (h : noDupPairs (ledgerOf st)) :
    noDupPairs (ledgerOf (postVotes st req now ip).2) := by
  obtain ⟨cf, vf⟩ := st
  unfold postVotes
  split
  · exact h
  · dsimp only
    cases vf with
    | stored votes =>
      dsimp only [readJsonFile]
      split
      case isTrue => exact h
      case isFalse hdup =>
        dsimp only [ledgerOf, writeJsonFile] at h ⊢
        rw [noDupPairs, List.pairwise_append]
        refine ⟨h, List.pairwise_singleton _ _, ?_⟩
        intro v hv w hw
        simp only [List.mem_singleton] at hw
        subst hw
        simp only [List.any_eq_true, Bool.and_eq_true, beq_iff_eq, not_exists,
          not_and] at hdup
        intro hkey
        simp only [pairKey, Prod.mk.injEq] at hkey
        exact hdup v hv hkey.1 hkey.2
    | absent =>
      dsimp only [readJsonFile]
      simp only [List.any_nil, List.nil_append]
      exact List.pairwise_singleton _ _
    | corrupt =>
      dsimp only [readJsonFile]
      simp only [List.any_nil, List.nil_append]
      exact List.pairwise_singleton _ _

/-- Any sequence of `POST /api/votes` calls preserves pairwise-distinct
vote keys. -/
theorem runVotes_noDup (calls : List (VoteRequest × String × String)) :
    ∀ st : Store, noDupPairs (ledgerOf st) →
      noDupPairs (ledgerOf (runVotes st calls)) := by
  induction calls with
  | nil => exact fun st h => h
  | cons c rest ih =>
    intro st h
    obtain ⟨req, now, ip⟩ := c
    exact ih _ (postVotes_preserves_noDup st req now ip h)

/-- A successful `POST /api/votes` appends exactly one vote to the ledger. -/
theorem postVotes_success_state (st : Store) (req : VoteRequest)
    (now ip : String) (hs : (postVotes st req now ip).1 = .success) :
    postVotes st req now ip =
      (.success,
        { st with votesFile := .stored ((readJsonFile st.votesFile []).1 ++
            [⟨req.commitId.getD "", req.userId.getD "", now, ip⟩]) }) := by
  unfold postVotes at hs ⊢
  split at hs
  case isTrue h1 => simp at hs
  case isFalse h1 =>
    rw [if_neg h1]
    dsimp only at hs ⊢
    split at hs
    case isTrue h2 => simp at hs
    case isFalse h2 =>
      rw [if_neg h2]
      rfl

/-- When the stored ledger already holds the pair of the request, the handler
answers `alreadyVoted` and the store is unchanged. -/
theorem postVotes_stored_dup (cf : FileContent (List Commit))
    (votes : List Vote) (req : VoteRequest) (now ip : String)
    (h1 : (falsy req.commitId || falsy req.userId) = false)
    (h2 : (votes.any fun vote => vote.commitId == req.commitId.getD "" &&
            vote.userId == req.userId.getD "") = true) :
    postVotes ⟨cf, .stored votes⟩ req now ip =
      (.alreadyVoted, ⟨cf, .stored votes⟩) := by
  unfold postVotes
  rw [if_neg (by simp [h1])]
  dsimp only [readJsonFile]
  rw [if_pos h2]

/-- A second call with the identical pair, right after a successful one,
answers `alreadyVoted` and leaves the store exactly as it was. -/
theorem postVotes_second_duplicate (st : Store) (req : VoteRequest)
    (now ip now2 ip2 : String)
    (hs : (postVotes st req now ip).1 = .success) :
    postVotes (postVotes st req now ip).2 req now2 ip2 =
      (.alreadyVoted, (postVotes st req now ip).2) := by
  have h1 : (falsy req.commitId || falsy req.userId) = false := by
    by_contra hne
    have h1t : (falsy req.commitId || falsy req.userId) = true := by
      revert hne; cases falsy req.commitId || falsy req.userId <;> simp
    unfold postVotes at hs
    rw [if_pos h1t] at hs
    simp at hs
  have hstate := postVotes_success_state st req now ip hs
  rw [hstate]
  apply postVotes_stored_dup _ _ _ _ _ h1
  rw [List.any_eq_true]
  refine ⟨⟨req.commitId.getD "", req.userId.getD "", now, ip⟩,
    List.mem_append_right _ (List.mem_singleton.mpr rfl), ?_⟩
  simp

/-- C1: starting from any ledger with pairwise-distinct `(commitId, userId)`
keys (in particular the initially empty one), every sequence of
`POST /api/votes` calls keeps the keys pairwise distinct — at most one vote
per pair — and a second call with the identical pair right after a
successful one is answered with HTTP 400 "Already voted" while the store,
hence the ledger and its length, is left exactly as it was. -/
theorem vote_ledger_at_most_once (st : Store)
    (calls : List (VoteRequest × String × String))
    (hstart : noDupPairs (ledgerOf st))
    (req : VoteRequest) (now ip now2 ip2 : String) :
    noDupPairs (ledgerOf (runVotes st calls)) ∧
    ((postVotes st req now ip).1 = .success →
      postVotes (postVotes st req now ip).2 req now2 ip2 =
        (.alreadyVoted, (postVotes st req now ip).2)) :=
  ⟨runVotes_noDup calls st hstart,
   fun hs => postVotes_second_duplicate st req now ip now2 ip2 hs⟩

/-- Witness for C1: a concrete vote from the empty store, repeated. -/
theorem vote_ledger_at_most_once_witness :
    noDupPairs (ledgerOf (runVotes ⟨.absent, .absent⟩
      [(⟨some "c1", some "u1"⟩, "t1", "i1")])) ∧
    postVotes (postVotes ⟨.absent, .absent⟩ ⟨some "c1", some "u1"⟩ "t1" "i1").2
        ⟨some "c1", some "u1"⟩ "t2" "i2" =
      (.alreadyVoted,
        (postVotes ⟨.absent, .absent⟩ ⟨some "c1", some "u1"⟩ "t1" "i1").2) := by
  have h := vote_ledger_at_most_once ⟨.absent, .absent⟩
    [(⟨some "c1", some "u1"⟩, "t1", "i1")] List.Pairwise.nil
    ⟨some "c1", some "u1"⟩ "t1" "i1" "t2" "i2"
  exact ⟨h.1, h.2 (by decide)⟩

/-- The comparator of the ranking view is transitive. -/
theorem voteCompare_trans (a b c : RankedCommit)
    (hab : voteCompare a b) (hbc : voteCompare b c) : voteCompare a c := by
  simp only [voteCompare, Nat.ble_eq] at *
  omega

/-- The comparator of the ranking view is total. -/
theorem voteCompare_total (a b : RankedCommit) :
    voteCompare a b || voteCompare b a := by
  simp only [voteCompare, Nat.ble_eq]
  rcases Nat.le_total b.upvotes a.upvotes with h | h <;> simp [h]

/-- Without a search term, `GET /api/commits` answers the stable-sorted
enriched collection. -/
theorem getCommits_none (st : Store) :
    (getCommits st none).1 =
      ((commitsOf st).map (enrichCommit (votesOf st))).mergeSort voteCompare :=
  rfl

/-- C2: the output of `GET /api/commits` without a search term is sorted by
`upvotes` descending, where the `upvotes` of an item is the number of votes
whose `commitId` equals the `id` of the item; and any two items of the persisted
collection with equal vote counts appear in the output in the same relative
order as in the persisted collection (the sort is stable). -/
theorem ranking_sorted_stable (st : Store) :
    ((getCommits st none).1.Pairwise fun a b => b.upvotes ≤ a.upvotes) ∧
    (∀ c1 c2 : Commit,
      upvotesOf (votesOf st) c1 = upvotesOf (votesOf st) c2 →
      List.Sublist [c1, c2] (commitsOf st) →
      List.Sublist
        [enrichCommit (votesOf st) c1, enrichCommit (votesOf st) c2]
        (getCommits st none).1) := by
  constructor
  · rw [getCommits_none]
    have h := List.sorted_mergeSort voteCompare_trans voteCompare_total
      ((commitsOf st).map (enrichCommit (votesOf st)))
    exact h.imp fun hab => by simpa [voteCompare, Nat.ble_eq] using hab
  · intro c1 c2 hup hsub
    rw [getCommits_none]
    apply List.pair_sublist_mergeSort voteCompare_trans voteCompare_total
    · simp [voteCompare, enrichCommit, hup]
    · exact hsub.map (enrichCommit (votesOf st))

/-- Witness for C2: two concrete tied items stay in collection order. -/
theorem ranking_sorted_stable_witness :
    List.Sublist
      [enrichCommit [⟨"b", "u1", "t", "i"⟩] ⟨"a", "m1", "au1", "d", "l", none⟩,
       enrichCommit [⟨"b", "u1", "t", "i"⟩] ⟨"c", "m2", "au2", "d", "l", none⟩]
      (getCommits
        ⟨.stored [⟨"a", "m1", "au1", "d", "l", none⟩,
                  ⟨"c", "m2", "au2", "d", "l", none⟩],
         .stored [⟨"b", "u1", "t", "i"⟩]⟩ none).1 :=
  (ranking_sorted_stable
      ⟨.stored [⟨"a", "m1", "au1", "d", "l", none⟩,
                ⟨"c", "m2", "au2", "d", "l", none⟩],
       .stored [⟨"b", "u1", "t", "i"⟩]⟩).2
    ⟨"a", "m1", "au1", "d", "l", none⟩ ⟨"c", "m2", "au2", "d", "l", none⟩
    (by decide) (List.Sublist.refl _)

/-- With a non-empty search term, `GET /api/commits` answers the ranked
list filtered by the lower-cased term. -/
theorem getCommits_some (st : Store) (q : String)
    (hq : (jsToLower q).data.isEmpty = false) :
    (getCommits st (some q)).1 =
      (((commitsOf st).map (enrichCommit (votesOf st))).mergeSort
        voteCompare).filter (matchesSearch (jsToLower q)) := by
  unfold getCommits
  dsimp only
  simp [hq, commitsOf, votesOf]

/-- With an empty search term, `GET /api/commits` answers the full ranked
list (an empty lower-cased string is falsy). -/
theorem getCommits_some_empty (st : Store) (q : String)
    (hq : (jsToLower q).data.isEmpty = true) :
    (getCommits st (some q)).1 = (getCommits st none).1 := by
  unfold getCommits
  dsimp only
  simp [hq]

/-- An item whose `description` (and only it) contains the search term. -/
def c3Item : Commit :=
  { id := "1", message := "aaa", author := "bbb", date := "d", link := "l",
    description := some "the xyz feature" }

/-- A store persisting `c3Item` and no votes. -/
def c3Store : Store := ⟨.stored [c3Item], .stored []⟩

/-- C3 counterexample: the `description` of `c3Item` contains the term `"xyz"`
(case-insensitively) while its `message` and `author` do not, yet the
search `GET /api/commits?search=xyz` excludes it — the response is empty.
The claim, which lets a `description` match suffice for inclusion, fails:
the handler never examines `description`. -/
theorem search_ignores_description_cex :
    jsIncludes (jsToLower (c3Item.description.getD "")) (jsToLower "xyz") = true ∧
    jsIncludes (jsToLower c3Item.message) (jsToLower "xyz") = false ∧
    jsIncludes (jsToLower c3Item.author) (jsToLower "xyz") = false ∧
    (getCommits c3Store (some "xyz")).1 = [] := by
  refine ⟨by decide, by decide, by decide, ?_⟩
  rw [getCommits_some c3Store "xyz" (by decide)]
  rw [show (commitsOf c3Store).map (enrichCommit (votesOf c3Store))
        = [enrichCommit [] c3Item] from rfl]
  rw [List.mergeSort_singleton]
  decide

/-- C3 (amended): for every term, the searched list is a subsequence of the
full ranked list; for a non-empty term an item is included exactly when its
`message` or `author` contains the lower-cased term case-insensitively (the
`description` field is never examined); an empty or absent term returns the
full ranked list. -/
theorem search_filters_message_author (st : Store) (q : String) :
    List.Sublist (getCommits st (some q)).1 (getCommits st none).1 ∧
    ((jsToLower q).data.isEmpty = false → ∀ r : RankedCommit,
      r ∈ (getCommits st (some q)).1 ↔
        r ∈ (getCommits st none).1 ∧ matchesSearch (jsToLower q) r = true) ∧
    ((jsToLower q).data.isEmpty = true →
      (getCommits st (some q)).1 = (getCommits st none).1) := by
  refine ⟨?_, ?_, getCommits_some_empty st q⟩
  · cases hq : (jsToLower q).data.isEmpty with
    | true =>
      rw [getCommits_some_empty st q hq]
    | false =>
      rw [getCommits_some st q hq, getCommits_none]
      exact List.filter_sublist _
  · intro hq r
    rw [getCommits_some st q hq, getCommits_none]
    exact List.mem_filter

/-- Witness for C3 (amended): the empty term returns the full list, and an
item matching in neither `message` nor `author` is excluded. -/
theorem search_filters_message_author_witness :
    (getCommits c3Store (some "")).1 = (getCommits c3Store none).1 ∧
    enrichCommit [] c3Item ∉ (getCommits c3Store (some "zzz")).1 := by
  refine ⟨(search_filters_message_author c3Store "").2.2 (by decide),
    fun hmem => ?_⟩
  have h := ((search_filters_message_author c3Store "zzz").2.1 (by decide)
    (enrichCommit [] c3Item)).mp hmem
  exact absurd h.2 (by decide)

/-- Normalization distributes over page concatenation. -/
theorem normalizeCommits_append (l1 l2 : List RawCommit) :
    normalizeCommits (l1 ++ l2) = normalizeCommits l1 ++ normalizeCommits l2 := by
  simp [normalizeCommits]

/-- If every page before `p` is ok and advertises a next relation while the
response for page `p` is not ok, the fetch loop started at `start` fails
with the status text of that page. -/
theorem fetchCommitsLoop_error_at (upstream : PageRequest → UpstreamResponse) :
    ∀ (fuel start : Nat) (acc : List RawCommit) (reqs : List PageRequest)
      (p : Nat),
      start ≤ p → p < start + fuel →
      (∀ k, start ≤ k → k < p →
        (upstream ⟨100, k⟩).ok = true ∧
          hasNextPage (upstream ⟨100, k⟩) = true) →
      (upstream ⟨100, p⟩).ok = false →
      fetchCommitsLoop upstream fuel start acc reqs =
        .error (.apiError (upstream ⟨100, p⟩).statusText) := by
  intro fuel
  induction fuel with
  | zero =>
    intro start acc reqs p h1 h2 _ _
    omega
  | succ f ih =>
    intro start acc reqs p h1 h2 hok hbad
    unfold fetchCommitsLoop
    dsimp only
    by_cases hsp : p = start
    · subst hsp
      rw [if_pos (by simp [hbad])]
    · have hlt : start < p := by omega
      have hs := hok start (Nat.le_refl _) hlt
      rw [if_neg (by simp [hs.1]), if_pos hs.2]
      exact ih (start + 1) _ _ p (by omega) (by omega)
        (fun k hk1 hk2 => hok k (by omega) hk2) hbad

/-- Every request issued by the fetch loop carries `per_page=100`. -/
theorem fetchCommitsLoop_perPage (upstream : PageRequest → UpstreamResponse) :
    ∀ (fuel start : Nat) (acc : List RawCommit) (reqs : List PageRequest)
      (commits : List RawCommit) (reqs' : List PageRequest),
      fetchCommitsLoop upstream fuel start acc reqs = .ok (commits, reqs') →
      (∀ r ∈ reqs, r.perPage = 100) → ∀ r ∈ reqs', r.perPage = 100 := by
  intro fuel
  induction fuel with
  | zero =>
    intro start acc reqs c r' h
    exact absurd h (by simp [fetchCommitsLoop])
  | succ f ih =>
    intro start acc reqs c r' h hacc
    unfold fetchCommitsLoop at h
    dsimp only at h
    by_cases hok : (upstream ⟨100, start⟩).ok
    · rw [if_neg (by simp [hok])] at h
      by_cases hnext : hasNextPage (upstream ⟨100, start⟩)
      · rw [if_pos hnext] at h
        refine ih _ _ _ _ _ h (fun r hr => ?_)
        rcases List.mem_append.mp hr with h1 | h1
        · exact hacc r h1
        · simp only [List.mem_singleton] at h1
          subst h1
          rfl
      · rw [if_neg hnext] at h
        simp only [Except.ok.injEq, Prod.mk.injEq] at h
        obtain ⟨-, h2⟩ := h
        subst h2
        intro r hr
        rcases List.mem_append.mp hr with h1 | h1
        · exact hacc r h1
        · simp only [List.mem_singleton] at h1
          subst h1
          rfl
    · rw [if_pos (by simp [hok])] at h
      exact absurd h (by simp)

/-- The two-page scenario: page 1 is ok and advertises a next relation,
page 2 is ok and does not; the fetch issues exactly the two requests and
returns the normalization of the concatenated bodies. -/
theorem fetchAllCommits_two_pages (upstream : PageRequest → UpstreamResponse)
    (fuel : Nat)
    (h1 : (upstream ⟨100, 1⟩).ok = true)
    (hn1 : hasNextPage (upstream ⟨100, 1⟩) = true)
    (h2 : (upstream ⟨100, 2⟩).ok = true)
    (hn2 : hasNextPage (upstream ⟨100, 2⟩) = false)
    (hfuel : 2 ≤ fuel) :
    fetchAllCommits upstream fuel =
      .ok (normalizeCommits ((upstream ⟨100, 1⟩).body ++ (upstream ⟨100, 2⟩).body),
           [⟨100, 1⟩, ⟨100, 2⟩]) := by
  obtain ⟨f, rfl⟩ : ∃ f, fuel = f + 2 := ⟨fuel - 2, by omega⟩
  unfold fetchAllCommits
  unfold fetchCommitsLoop
  dsimp only
  rw [if_neg (by simp [h1]), if_pos hn1]
  unfold fetchCommitsLoop
  dsimp only
  rw [if_neg (by simp [h2]), if_neg (by simp [hn2])]
  rfl

/-- C5: every page request issued by `fetchAllCommits` asks for 100 items,
and in the two-page scenario — the first page advertising a `next` relation,
the second not — exactly requests 1 and 2 are issued and the result is the
concatenation of the normalized items of the two pages. -/
theorem paginator_pages (upstream : PageRequest → UpstreamResponse)
    (fuel : Nat) :
    (∀ commits reqs, fetchAllCommits upstream fuel = .ok (commits, reqs) →
      ∀ r ∈ reqs, r.perPage = 100) ∧
    ((upstream ⟨100, 1⟩).ok = true → hasNextPage (upstream ⟨100, 1⟩) = true →
     (upstream ⟨100, 2⟩).ok = true → hasNextPage (upstream ⟨100, 2⟩) = false →
     2 ≤ fuel →
     fetchAllCommits upstream fuel =
       .ok (normalizeCommits (upstream ⟨100, 1⟩).body ++
              normalizeCommits (upstream ⟨100, 2⟩).body,
            [⟨100, 1⟩, ⟨100, 2⟩])) := by
  constructor
  · intro commits reqs h r hr
    unfold fetchAllCommits at h
    cases hloop : fetchCommitsLoop upstream fuel 1 [] [] with
    | error e =>
      rw [hloop] at h
      exact absurd h (by simp)
    | ok val =>
      rw [hloop] at h
      obtain ⟨c0, reqs0⟩ := val
      simp only [Except.ok.injEq, Prod.mk.injEq] at h
      obtain ⟨-, h2⟩ := h
      subst h2
      exact fetchCommitsLoop_perPage upstream fuel 1 [] [] c0 reqs0 hloop
        (by simp) r hr
  · intro ha hb hc hd hf
    rw [fetchAllCommits_two_pages upstream fuel ha hb hc hd hf,
      normalizeCommits_append]

/-- A raw commit used by the paginator witnesses. -/
def rawFix : RawCommit := ⟨"sha1", ⟨"Fix overflow", ⟨"alice", "2024-01-01"⟩⟩, "u1"⟩

/-- A second raw commit used by the paginator witnesses. -/
def rawAdd : RawCommit := ⟨"sha2", ⟨"Add feature", ⟨"bob", "2024-01-02"⟩⟩, "u2"⟩

/-- A concrete upstream serving two pages, the first advertising `next`. -/
def twoPageUpstream : PageRequest → UpstreamResponse := fun r =>
  if r.page = 1 then ⟨true, "OK", [rawFix], some "<page2>; rel=\"next\""⟩
  else ⟨true, "OK", [rawAdd], none⟩

/-- Witness for C5: the two-page upstream yields the items of both pages and
exactly the two requests. -/
theorem paginator_pages_witness :
    fetchAllCommits twoPageUpstream 5 =
      .ok (normalizeCommits [rawFix] ++ normalizeCommits [rawAdd],
           [⟨100, 1⟩, ⟨100, 2⟩]) :=
  (paginator_pages twoPageUpstream 5).2 (by decide) (by decide) (by decide)
    (by decide) (by decide)

/-- C4: with a non-falsy token, (i) if `fetchAllCommits` fails the sync
handler answers HTTP 500 and the store — in particular the persisted items
snapshot — is exactly unchanged; (ii) on success it overwrites the items
snapshot wholesale with the fetched collection and answers its length;
(iii) a non-success upstream status on any page reached by the loop makes
`fetchAllCommits` fail with the status text of that page, returning no items. -/
theorem sync_fail_closed (st : Store) (token : String)
    (htok : falsy (some token) = false)
    (upstream : PageRequest → UpstreamResponse) (fuel : Nat) :
    (∀ e, fetchAllCommits upstream fuel = .error e →
      postSync st (some token) upstream fuel = (.syncFailed, st)) ∧
    (∀ commits reqs, fetchAllCommits upstream fuel = .ok (commits, reqs) →
      postSync st (some token) upstream fuel =
        (.synced commits.length,
         { st with commitsFile := writeJsonFile commits })) ∧
    (∀ p, 1 ≤ p → p ≤ fuel →
      (∀ k, 1 ≤ k → k < p →
        (upstream ⟨100, k⟩).ok = true ∧
          hasNextPage (upstream ⟨100, k⟩) = true) →
      (upstream ⟨100, p⟩).ok = false →
      fetchAllCommits upstream fuel =
        .error (.apiError (upstream ⟨100, p⟩).statusText)) := by
  refine ⟨?_, ?_, ?_⟩
  · intro e h
    unfold postSync
    rw [if_neg (by simp [htok]), h]
  · intro commits reqs h
    unfold postSync
    rw [if_neg (by simp [htok]), h]
  · intro p hp1 hp2 hok hbad
    unfold fetchAllCommits
    rw [fetchCommitsLoop_error_at upstream fuel 1 [] [] p hp1 (by omega)
      hok hbad]

/-- A concrete upstream whose second page answers a non-success status. -/
def failingUpstream : PageRequest → UpstreamResponse := fun r =>
  if r.page = 1 then ⟨true, "OK", [rawFix], some "<page2>; rel=\"next\""⟩
  else ⟨false, "Forbidden", [], none⟩

/-- Witness for C4: a failure on page 2 leaves a concrete store unchanged. -/
theorem sync_fail_closed_witness :
    postSync ⟨.stored [⟨"old", "m", "a", "d", "l", none⟩], .stored []⟩
        (some "tok") failingUpstream 5 =
      (.syncFailed, ⟨.stored [⟨"old", "m", "a", "d", "l", none⟩], .stored []⟩) := by
  have h := sync_fail_closed
    ⟨.stored [⟨"old", "m", "a", "d", "l", none⟩], .stored []⟩ "tok" (by decide)
    failingUpstream 5
  refine h.1 _ (h.2.2 2 (by decide) (by decide) (fun k hk1 hk2 => ?_) (by decide))
  have hk : k = 1 := by omega
  subst hk
  exact ⟨by decide, by decide⟩

/-- C6: normalization drops exactly the commits whose author display name is
the excluded identity `"Dishpit"` or whose message begins with the prefix
`"Merge"`, and maps each remaining record 1:1 to a canonical item with
`id = sha`, `message = commit message`, `author = commit author name`,
`date = commit author date`, `link = html URL`. -/
theorem normalize_drops_and_maps (raw : List RawCommit) :
    normalizeCommits raw =
      (raw.filter fun c =>
          !(c.commit.author.name == "Dishpit" ||
            jsStartsWith c.commit.message "Merge")).map
        fun c =>
          { id := c.sha, message := c.commit.message,
            author := c.commit.author.name, date := c.commit.author.date,
            link := c.html_url, description := none } := by
  unfold normalizeCommits
  rw [List.filter_congr]
  intro c _
  simp [bne, Bool.not_or]

/-- C7: a read of a key holding no decodable document — whether the file is
absent or fails to parse, the two being treated identically — seeds the key
with the caller-supplied default, persists it, and returns it; the next read
returns that same default. -/
theorem read_seeds_default {α : Type} (file : FileContent α) (d d2 : α)
    (h : ∀ doc, file ≠ .stored doc) :
    (readJsonFile file d).1 = d ∧
    (readJsonFile file d).2 = .stored d ∧
    (readJsonFile (readJsonFile file d).2 d2).1 = d ∧
    readJsonFile (.absent : FileContent α) d =
      readJsonFile (.corrupt : FileContent α) d := by
  cases file with
  | stored doc => exact absurd rfl (h doc)
  | absent => exact ⟨rfl, rfl, rfl, rfl⟩
  | corrupt => exact ⟨rfl, rfl, rfl, rfl⟩

/-- Witness for C7 at a concrete corrupt file and defaults. -/
theorem read_seeds_default_witness :
    (readJsonFile (FileContent.corrupt : FileContent (List Vote)) []).1 = [] ∧
    (readJsonFile
      (readJsonFile (FileContent.corrupt : FileContent (List Vote)) []).2
      [⟨"c", "u", "t", "i"⟩]).1 = [] :=
  ⟨(read_seeds_default FileContent.corrupt [] [⟨"c", "u", "t", "i"⟩]
      (fun _ hc => FileContent.noConfusion hc)).1,
   (read_seeds_default FileContent.corrupt [] [⟨"c", "u", "t", "i"⟩]
      (fun _ hc => FileContent.noConfusion hc)).2.2.1⟩

/-- C8: a vote request in which `commitId` or `userId` is missing or empty
is answered with HTTP 400 "Missing required fields" and the store — in
particular the vote ledger — is left exactly as it was. -/
theorem invalid_vote_rejected (st : Store) (req : VoteRequest) (now ip : String)
    (h : falsy req.commitId = true ∨ falsy req.userId = true) :
    postVotes st req now ip = (.missingFields, st) := by
  unfold postVotes
  rcases h with h | h <;> simp [h]

/-- Witness for C8 at a concrete empty-`commitId` request. -/
theorem invalid_vote_rejected_witness :
    postVotes ⟨.absent, .stored []⟩ ⟨some "", some "u1"⟩ "t" "i"
      = (.missingFields, ⟨.absent, .stored []⟩) :=
  invalid_vote_rejected ⟨.absent, .stored []⟩ ⟨some "", some "u1"⟩ "t" "i"
    (Or.inl (by decide))

/-- C9: writing a document under a key and then reading that key returns the
written document (JSON serialization round-trips the documents used here). -/
theorem write_read_roundtrip {α : Type} (x d : α) :
    readJsonFile (writeJsonFile x) d = (x, .stored x) := rfl

/-- C10: a vote-record operation (successful or failed) never modifies the
persisted items document, and a sync operation (successful or failed) never
modifies the persisted votes document. -/
theorem cross_document_frame (st : Store) (req : VoteRequest) (now ip : String)
    (token : Option String) (upstream : PageRequest → UpstreamResponse)
    (fuel : Nat) :
    (postVotes st req now ip).2.commitsFile = st.commitsFile ∧
    (postSync st token upstream fuel).2.votesFile = st.votesFile := by
  constructor
  · unfold postVotes
    split
    · rfl
    · dsimp only
      split <;> rfl
  · unfold postSync
    split
    · rfl
    · split <;> rfl

end Suwurver
